/-
Verification of the resumable, quota-aware batch acquisition pipeline of the
Bloomberg-data-fetcher repository.

Shallow embedding conventions:
* Python `dict`s keyed by strings are embedded as association lists
  `List (String × _)` with first-match lookup; `dict.get(k, 0)` becomes
  `lookupD l k`, `d[k] = v` becomes first-occurrence replacement (or append for
  a new key), mirroring Python's insertion-ordered dict semantics.
* Python unbounded `int` becomes `Int`; prices and other floats become `ℚ`
  with `Option ℚ` for values that may be NaN/absent (pandas semantics:
  every comparison against NaN is false).
* Calendar dates are abstract: date and month keys are the strings produced
  by `strftime` and are passed to each operation as explicit parameters
  (the Python code reads them from the wall clock at call time).
* Logging, `print` and file I/O (`_save_usage_data`, `save_state`, sqlite
  logging) have no effect on the in-memory data the claims are about; the
  persisted document is exactly the in-memory structure, so the embedded
  state stands for both.
-/
import Mathlib

namespace BloombergFetcher

/-! ## `src/usage_monitor.py` — `UsageMonitor` -/

namespace UsageMonitor

/-- First-match association-list lookup with default `0`, embedding
`self.usage_data['daily'].get(key, 0)`. -/
def lookupD (l : List (String × Int)) (k : String) : Int :=
  ((l.find? (fun p => p.1 = k)).map Prod.snd).getD 0

/-- Embeds the pair of statements
`if k not in d: d[k] = 0` / `d[k] += count`: the first entry for `k` is
incremented in place, otherwise a new entry is appended (Python dicts keep
insertion order). -/
def bump (l : List (String × Int)) (k : String) (count : Int) : List (String × Int) :=
  match l with
  | [] => [(k, count)]
  | (k', v) :: rest =>
      if k' = k then (k', v + count) :: rest else (k', v) :: bump rest k count

/-- The state of `UsageMonitor`: the configured limits and the contents of
`usage_data` (`daily` and `monthly` counters plus the running total). -/
structure State where
  dailyLimit : Int
  monthlyLimit : Int
  daily : List (String × Int)
  monthly : List (String × Int)
  total : Int
  deriving DecidableEq, Repr

/-- `UsageMonitor.record_usage`: adds `count` to the daily counter keyed by
`today`, to the monthly counter keyed by `month`, and to the running total.
`_save_usage_data` and `_check_limits` only write the file and log. -/
def record_usage (s : State) (today month : String) (count : Int) : State :=
  { s with
    daily := bump s.daily today count
    monthly := bump s.monthly month count
    total := s.total + count }

/-- `UsageMonitor.can_make_request`: false as soon as the projected daily or
monthly consumption exceeds its limit, true otherwise. -/
def can_make_request (s : State) (today month : String) (estimatedCount : Int) : Bool :=
  if lookupD s.daily today + estimatedCount > s.dailyLimit then false
  else if lookupD s.monthly month + estimatedCount > s.monthlyLimit then false
  else true

/-- `UsageMonitor.reset_daily_usage`: if an entry for `today` exists, it is
explicitly set back to `0` (the method is provided "for testing"). -/
def reset_daily_usage (s : State) (today : String) : State :=
  if (s.daily.find? (fun p => p.1 = today)).isSome then
    { s with daily := s.daily.map (fun p => if p.1 = today then (p.1, 0) else p) }
  else s

/-- Folding a whole sequence of `record_usage` calls made on one day. -/
def recordSeq (s : State) (today month : String) (counts : List Int) : State :=
  counts.foldl (fun st c => record_usage st today month c) s

theorem lookupD_bump_self (l : List (String × Int)) (k : String) (c : Int) :
    lookupD (bump l k c) k = lookupD l k + c := by
  induction l with
  | nil => simp [bump, lookupD, List.find?]
  | cons p rest ih =>
      obtain ⟨k', v⟩ := p
      by_cases h : k' = k
      · subst h
        simp [bump, lookupD, List.find?]
      · simp only [bump, if_neg h]
        simpa [lookupD, List.find?, h] using ih

theorem lookupD_bump_ne (l : List (String × Int)) (k k' : String) (c : Int)
    (h : k' ≠ k) : lookupD (bump l k c) k' = lookupD l k' := by
  induction l with
  | nil => simp [bump, lookupD, List.find?, Ne.symm h]
  | cons p rest ih =>
      obtain ⟨k₀, v⟩ := p
      by_cases h₀ : k₀ = k
      · subst h₀
        simp [bump, lookupD, List.find?, Ne.symm h]
      · simp only [bump, if_neg h₀]
        by_cases h₁ : k₀ = k'
        · simp [lookupD, List.find?, h₁]
        · simpa [lookupD, List.find?, h₁] using ih

theorem lookupD_recordSeq_daily (today month : String) (counts : List Int) :
    ∀ (s : State) (day : String),
      lookupD (recordSeq s today month counts).daily day =
        lookupD s.daily day + (if day = today then counts.sum else 0) := by
  induction counts with
  | nil => intro s day; simp [recordSeq]
  | cons c cs ih =>
      intro s day
      have hstep : recordSeq s today month (c :: cs) =
          recordSeq (record_usage s today month c) today month cs := rfl
      rw [hstep, ih]
      by_cases hd : day = today
      · subst hd
        simp [record_usage, lookupD_bump_self, List.sum_cons]
        ring
      · simp [record_usage, lookupD_bump_ne _ _ _ _ hd, hd]

end UsageMonitor

open UsageMonitor in
/-- **C1.** `UsageMonitor.can_make_request(estimate)` returns true iff the
current day's recorded usage plus the estimate does not exceed the daily
limit and the current month's recorded usage plus the estimate does not
exceed the monthly limit. -/
theorem claim_C1_can_make_request (s : State) (today month : String)
    (est : Int) (hest : 0 ≤ est) :
    can_make_request s today month est = true ↔
      lookupD s.daily today + est ≤ s.dailyLimit ∧
      lookupD s.monthly month + est ≤ s.monthlyLimit := by
  unfold can_make_request
  by_cases h1 : lookupD s.daily today + est > s.dailyLimit
  · simp only [if_pos h1]
    constructor
    · intro h; cases h
    · intro h; omega
  · by_cases h2 : lookupD s.monthly month + est > s.monthlyLimit
    · simp only [if_neg h1, if_pos h2]
      constructor
      · intro h; cases h
      · intro h; omega
    · simp only [if_neg h1, if_neg h2]
      constructor
      · intro _; omega
      · intro _; trivial

open UsageMonitor in
/-- Witness for C1 at a concrete quota state. -/
theorem claim_C1_can_make_request_witness :
    0 ≤ (3 : Int) ∧
      (can_make_request ⟨100, 1000, [("d1", 10)], [("m1", 50)], 60⟩ "d1" "m1" 3 = true ↔
        lookupD [("d1", 10)] "d1" + 3 ≤ 100 ∧ lookupD [("m1", 50)] "m1" + 3 ≤ 1000) :=
  ⟨by decide, claim_C1_can_make_request ⟨100, 1000, [("d1", 10)], [("m1", 50)], 60⟩
    "d1" "m1" 3 (by decide)⟩

open UsageMonitor in
/-- **C7 (counterexample).** The claim says the consumption counters are
"reset only by period rollover to a new date/month key, never by explicit
mutation"; but `UsageMonitor.reset_daily_usage` explicitly mutates the
current day's daily counter back to `0` (here from `5`) without any key
rollover. -/
theorem claim_C7_counterexample :
    lookupD (reset_daily_usage ⟨100, 1000, [("d1", 5)], [("m1", 5)], 5⟩ "d1").daily "d1" = 0 ∧
      lookupD (⟨100, 1000, [("d1", 5)], [("m1", 5)], 5⟩ : State).daily "d1" = 5 := by
  constructor <;> decide

open UsageMonitor in
/-- **C7 (amended).** For every sequence of `record_usage(u1), ..., record_usage(un)`
calls within one calendar day, the daily counter for that day grows by exactly
`u1 + ... + un` (so from a fresh day it equals the sum), and when the recorded
units are non-negative every daily counter is monotonically non-decreasing
under `record_usage`; the counters are keyed by date/month so a new period
starts from `0`.  However, the counters are not immune to explicit mutation:
`reset_daily_usage` sets the current day's counter back to zero. -/
theorem claim_C7_amended (s : State) (today month : String) (counts : List Int)
    (hpos : ∀ c ∈ counts, 0 ≤ c) :
    lookupD (recordSeq s today month counts).daily today =
        lookupD s.daily today + counts.sum ∧
      ∀ day, lookupD s.daily day ≤ lookupD (recordSeq s today month counts).daily day := by
  constructor
  · rw [lookupD_recordSeq_daily]
    simp
  · intro day
    rw [lookupD_recordSeq_daily]
    have hsum : 0 ≤ counts.sum := List.sum_nonneg hpos
    by_cases hd : day = today
    · simp [hd]; omega
    · simp [hd]

open UsageMonitor in
/-- Witness for the amended C7 at a concrete state and sequence of calls. -/
theorem claim_C7_amended_witness :
    (∀ c ∈ [(2 : Int), 3, 7], 0 ≤ c) ∧
      (lookupD (recordSeq ⟨100, 1000, [], [], 0⟩ "d1" "m1" [2, 3, 7]).daily "d1" =
          lookupD ([] : List (String × Int)) "d1" + [(2 : Int), 3, 7].sum ∧
        ∀ day, lookupD ([] : List (String × Int)) day ≤
          lookupD (recordSeq ⟨100, 1000, [], [], 0⟩ "d1" "m1" [2, 3, 7]).daily day) :=
  ⟨by decide, claim_C7_amended ⟨100, 1000, [], [], 0⟩ "d1" "m1" [2, 3, 7] (by decide)⟩

/-! ## `src/fetch_state_manager.py` — `FetchStateManager`

The manager's JSON state document is embedded as `SessionState`; every
mutating method ends in `save_state()`, which writes exactly this structure,
so the embedded state stands for both the in-memory and the persisted copy.
`datetime.now().isoformat()` timestamps are passed in as a `now` parameter.
The sqlite `fetch_history` / `error_log` side tables receive append-only
diagnostics and are not part of the session state document. -/

namespace FetchState

structure Stats where
  recordsFetched : Int
  apiPointsUsed : Int
  errorsEncountered : Int
  retriesAttempted : Int
  timeElapsed : Int
  deriving DecidableEq, Repr

/-- One value of the `failed` map: `{'error': ..., 'retry_count': ..., 'timestamp': ...}`. -/
structure FailInfo where
  error : String
  retryCount : Nat
  timestamp : String
  deriving DecidableEq, Repr

/-- One entry of the `checkpoints` list. -/
structure Checkpoint where
  timestamp : String
  completed : Nat
  failed : Nat
  pending : Nat
  records : Int
  apiUsage : Int
  deriving DecidableEq, Repr

/-- The state document created by `_create_new_state` and mutated by the
manager's methods (the `failed` dict is an insertion-ordered map). -/
structure SessionState where
  sessionId : String
  status : String
  startTime : String
  lastUpdate : String
  totalTickers : Int
  completed : List String
  failed : List (String × FailInfo)
  pending : List String
  inProgress : Option String
  statistics : Stats
  checkpoints : List Checkpoint
  deriving DecidableEq, Repr

/-- `_create_new_state`. -/
def initState (sessionId now : String) : SessionState :=
  { sessionId := sessionId
    status := "initialized"
    startTime := now
    lastUpdate := now
    totalTickers := 0
    completed := []
    failed := []
    pending := []
    inProgress := none
    statistics := ⟨0, 0, 0, 0, 0⟩
    checkpoints := [] }

/-- `FetchStateManager.initialize_tickers`. -/
def initialize_tickers (tickers : List String) (s : SessionState) : SessionState :=
  { s with
    totalTickers := tickers.length
    pending := tickers
    completed := []
    failed := []
    status := "ready" }

/-- `FetchStateManager.start_ticker`: returns `False` and changes nothing if
the ticker is already completed; otherwise removes the ticker from `pending`
(if present), makes it the in-progress ticker and sets status `fetching`. -/
def start_ticker (ticker now : String) (s : SessionState) : Bool × SessionState :=
  if ticker ∈ s.completed then (false, s)
  else
    (true,
      { s with
        pending := s.pending.erase ticker
        inProgress := some ticker
        status := "fetching"
        lastUpdate := now })

/-- Python `d[k] = v` on the `failed` dict: replace the first entry for `k`,
or append a fresh entry. -/
def updateFail (l : List (String × FailInfo)) (k : String) (info : FailInfo) :
    List (String × FailInfo) :=
  match l with
  | [] => [(k, info)]
  | (k', v) :: rest =>
      if k' = k then (k', info) :: rest else (k', v) :: updateFail rest k info

/-- `FetchStateManager.complete_ticker`. -/
def complete_ticker (ticker : String) (records apiPoints : Int) (now : String)
    (s : SessionState) : SessionState :=
  { s with
    completed := if ticker ∈ s.completed then s.completed else s.completed ++ [ticker]
    failed := s.failed.eraseP (fun p => p.1 = ticker)
    inProgress := if s.inProgress = some ticker then none else s.inProgress
    statistics :=
      { s.statistics with
        recordsFetched := s.statistics.recordsFetched + records
        apiPointsUsed := s.statistics.apiPointsUsed + apiPoints }
    lastUpdate := now }

/-- `FetchStateManager.fail_ticker`. -/
def fail_ticker (ticker error : String) (retryCount : Nat) (now : String)
    (s : SessionState) : SessionState :=
  { s with
    failed := updateFail s.failed ticker ⟨error, retryCount, now⟩
    inProgress := if s.inProgress = some ticker then none else s.inProgress
    statistics :=
      { s.statistics with
        errorsEncountered := s.statistics.errorsEncountered + 1
        retriesAttempted := s.statistics.retriesAttempted + retryCount }
    lastUpdate := now }

/-- `FetchStateManager.get_next_ticker`: peek at the head of `pending`. -/
def get_next_ticker (s : SessionState) : Option String :=
  s.pending.head?

/-- `FetchStateManager.get_resume_point`: the in-progress ticker if any,
else the next pending ticker. -/
def get_resume_point (s : SessionState) : Option String :=
  match s.inProgress with
  | some t => some t
  | none => get_next_ticker s

/-- In how many of the four regions {pending, completed, failed, in-progress}
does ticker `t` appear? -/
def countMem (s : SessionState) (t : String) : Nat :=
  (if t ∈ s.pending then 1 else 0) + (if t ∈ s.completed then 1 else 0) +
    (if (s.failed.find? (fun p => p.1 = t)).isSome then 1 else 0) +
    (if s.inProgress = some t then 1 else 0)

theorem find?_updateFail_self (l : List (String × FailInfo)) (k : String) (i : FailInfo) :
    ((updateFail l k i).find? (fun p => p.1 = k)).isSome = true := by
  induction l with
  | nil => simp [updateFail, List.find?]
  | cons p rest ih =>
      obtain ⟨k', v⟩ := p
      by_cases h : k' = k
      · subst h; simp [updateFail, List.find?]
      · simp only [updateFail, if_neg h]
        simpa [List.find?, h] using ih

theorem find?_updateFail_eq (l : List (String × FailInfo)) (k : String) (i : FailInfo) :
    (updateFail l k i).find? (fun p => p.1 = k) = some (k, i) := by
  induction l with
  | nil => simp [updateFail, List.find?]
  | cons p rest ih =>
      obtain ⟨k', v⟩ := p
      by_cases h : k' = k
      · subst h; simp [updateFail, List.find?]
      · simp only [updateFail, if_neg h]
        simpa [List.find?, h] using ih

theorem find?_updateFail_ne (l : List (String × FailInfo)) (k u : String) (i : FailInfo)
    (h : u ≠ k) :
    (updateFail l k i).find? (fun p => p.1 = u) = l.find? (fun p => p.1 = u) := by
  induction l with
  | nil => simp [updateFail, List.find?, Ne.symm h]
  | cons p rest ih =>
      obtain ⟨k', v⟩ := p
      by_cases hk : k' = k
      · subst hk; simp [updateFail, List.find?, Ne.symm h]
      · simp only [updateFail, if_neg hk]
        by_cases hu : k' = u
        · simp [List.find?, hu]
        · simpa [List.find?, hu] using ih

theorem eraseP_eq_self {α : Type _} (p : α → Bool) (l : List α)
    (h : ∀ a ∈ l, ¬ p a = true) : l.eraseP p = l := by
  induction l with
  | nil => rfl
  | cons a rest ih =>
      have ha := h a (by simp)
      simp [List.eraseP_cons, ha, ih (fun x hx => h x (by simp [hx]))]

/-- The operation sequences actually issued by the orchestrator: the session
is initialized once, `start_ticker` is only applied to a pending ticker while
no other ticker is in flight, and `complete_ticker` / `fail_ticker` are only
applied to the ticker currently in progress. -/
inductive Disciplined (targets : List String) : SessionState → Prop where
  | init (sessionId now : String) :
      Disciplined targets (initialize_tickers targets (initState sessionId now))
  | start (s : SessionState) (t now : String) :
      Disciplined targets s → t ∈ s.pending → s.inProgress = none →
      Disciplined targets (start_ticker t now s).2
  | complete (s : SessionState) (t : String) (records apiPoints : Int) (now : String) :
      Disciplined targets s → s.inProgress = some t →
      Disciplined targets (complete_ticker t records apiPoints now s)
  | fail (s : SessionState) (t error : String) (retryCount : Nat) (now : String) :
      Disciplined targets s → s.inProgress = some t →
      Disciplined targets (fail_ticker t error retryCount now s)

/-- The region invariant: `pending` is duplicate-free and every string lies in
exactly one region if it is a target, in no region otherwise. -/
def Inv (targets : List String) (s : SessionState) : Prop :=
  s.pending.Nodup ∧ ∀ t, countMem s t = if t ∈ targets then 1 else 0

theorem disciplined_inv (targets : List String) (hnd : targets.Nodup) :
    ∀ s, Disciplined targets s → Inv targets s := by
  intro s hs
  induction hs with
  | init sessionId now =>
      refine ⟨by simpa [initialize_tickers] using hnd, ?_⟩
      intro t
      by_cases ht : t ∈ targets <;>
        simp [countMem, initialize_tickers, initState, ht]
  | start s t now hs hpend hip ih =>
      obtain ⟨hndp, hcnt⟩ := ih
      have hct := hcnt t
      have hc : t ∉ s.completed := by
        intro hc
        by_cases hf : (s.failed.find? (fun p => p.1 = t)).isSome = true <;>
          by_cases ht : t ∈ targets <;>
            simp [countMem, hpend, hip, hc, hf, ht] at hct
      have hf : ¬ (s.failed.find? (fun p => p.1 = t)).isSome = true := by
        intro hf
        by_cases ht : t ∈ targets <;>
          simp [countMem, hpend, hip, hc, hf, ht] at hct
      have ht : t ∈ targets := by
        by_contra ht
        simp [countMem, hpend, hip, hc, hf, ht] at hct
      have hstate : (start_ticker t now s).2 =
          { s with pending := s.pending.erase t, inProgress := some t,
                   status := "fetching", lastUpdate := now } := by
        simp [start_ticker, hc]
      rw [hstate]
      refine ⟨hndp.erase t, ?_⟩
      intro u
      by_cases hu : u = t
      · subst hu
        have hne : u ∉ s.pending.erase u := fun hmem =>
          absurd rfl ((hndp.mem_erase_iff.mp hmem).1)
        simp [countMem, hne, hc, hf, ht]
      · have hcu := hcnt u
        simp only [countMem, hip] at hcu
        simpa [countMem, List.mem_erase_of_ne hu, Ne.symm hu] using hcu
  | complete s t records apiPoints now hs hip ih =>
      obtain ⟨hndp, hcnt⟩ := ih
      have hct := hcnt t
      have hp : t ∉ s.pending := by
        intro hp
        by_cases hc : t ∈ s.completed <;>
          by_cases hf : (s.failed.find? (fun p => p.1 = t)).isSome = true <;>
            by_cases ht : t ∈ targets <;>
              simp [countMem, hp, hip, hc, hf, ht] at hct
      have hc : t ∉ s.completed := by
        intro hc
        by_cases hf : (s.failed.find? (fun p => p.1 = t)).isSome = true <;>
          by_cases ht : t ∈ targets <;>
            simp [countMem, hp, hip, hc, hf, ht] at hct
      have hfs : ¬ (s.failed.find? (fun p => p.1 = t)).isSome = true := by
        intro hf
        by_cases ht : t ∈ targets <;>
          simp [countMem, hp, hip, hc, hf, ht] at hct
      have hfnone : s.failed.find? (fun p => p.1 = t) = none :=
        Option.not_isSome_iff_eq_none.mp hfs
      have hfall : ∀ a ∈ s.failed, ¬ (fun p : String × FailInfo => decide (p.1 = t)) a = true :=
        List.find?_eq_none.mp hfnone
      have ht : t ∈ targets := by
        by_contra ht
        simp [countMem, hp, hip, hc, hfnone, ht] at hct
      refine ⟨by simpa [complete_ticker] using hndp, ?_⟩
      intro u
      by_cases hu : u = t
      · subst hu
        simp [complete_ticker, countMem, hp, hc, hip, eraseP_eq_self _ _ hfall,
          hfnone, ht]
      · have hcu := hcnt u
        simp only [complete_ticker, countMem]
        simp only [eraseP_eq_self _ _ hfall]
        simpa [countMem, hip, hc, hu, Ne.symm hu] using hcu
  | fail s t error retryCount now hs hip ih =>
      obtain ⟨hndp, hcnt⟩ := ih
      have hct := hcnt t
      have hp : t ∉ s.pending := by
        intro hp
        by_cases hc : t ∈ s.completed <;>
          by_cases hf : (s.failed.find? (fun p => p.1 = t)).isSome = true <;>
            by_cases ht : t ∈ targets <;>
              simp [countMem, hp, hip, hc, hf, ht] at hct
      have hc : t ∉ s.completed := by
        intro hc
        by_cases hf : (s.failed.find? (fun p => p.1 = t)).isSome = true <;>
          by_cases ht : t ∈ targets <;>
            simp [countMem, hp, hip, hc, hf, ht] at hct
      have ht : t ∈ targets := by
        by_contra ht
        by_cases hf : (s.failed.find? (fun p => p.1 = t)).isSome = true <;>
          simp [countMem, hp, hip, hc, hf, ht] at hct
      refine ⟨by simpa [fail_ticker] using hndp, ?_⟩
      intro u
      by_cases hu : u = t
      · subst hu
        simp [fail_ticker, countMem, hp, hc, hip, find?_updateFail_self, ht]
      · have hcu := hcnt u
        simp only [fail_ticker, countMem]
        simp only [find?_updateFail_ne _ _ _ _ hu]
        simpa [countMem, hip, hu, Ne.symm hu] using hcu

end FetchState

open FetchState in
/-- **C3 (counterexample).** The "each target id appears in exactly one of
{pending, in-progress, completed, failed}" invariant is not preserved by
arbitrary sequences of the three mutators: from the initialized state with
the single target `"A"`, the one-call sequence `fail_ticker("A", ...)` leaves
`"A"` both in `pending` (which `fail_ticker` never touches) and in the
`failed` map — two regions at once. -/
theorem claim_C3_counterexample :
    countMem (fail_ticker "A" "boom" 0 "t1"
      (initialize_tickers ["A"] (initState "sid" "t0"))) "A" = 2 := by
  decide

open FetchState in
/-- **C3 (amended).** The exactly-one-region invariant does hold for every
state reachable under the discipline the orchestrator actually follows:
starting from an initialized session over duplicate-free targets,
`start_ticker` is applied only to a pending ticker while nothing is in
progress, and `complete_ticker`/`fail_ticker` only to the in-progress
ticker.  Under arbitrary call sequences the invariant can be violated (see
the counterexample: `fail_ticker` does not remove the ticker from
`pending`). -/
theorem claim_C3_amended (targets : List String) (hnd : targets.Nodup)
    (s : SessionState) (hs : Disciplined targets s) :
    ∀ t ∈ targets, countMem s t = 1 := by
  intro t ht
  have h := (disciplined_inv targets hnd s hs).2 t
  simpa [ht] using h

open FetchState in
/-- Witness for the amended C3: the invariant at a concrete reachable state
(one ticker completed, one failed after being started). -/
theorem claim_C3_amended_witness :
    (["A", "B"] : List String).Nodup ∧
      ∀ t ∈ ["A", "B"],
        countMem
          (fail_ticker "B" "boom" 3 "t4"
            ((start_ticker "B" "t3"
              (complete_ticker "A" 10 20 "t2"
                ((start_ticker "A" "t1"
                  (initialize_tickers ["A", "B"] (initState "sid" "t0"))).2))).2)) t = 1 :=
  ⟨by decide,
    claim_C3_amended ["A", "B"] (by decide) _
      (Disciplined.fail _ "B" "boom" 3 "t4"
        (Disciplined.start _ "B" "t3"
          (Disciplined.complete _ "A" 10 20 "t2"
            (Disciplined.start _ "A" "t1" (Disciplined.init "sid" "t0")
              (by decide) (by decide))
            (by decide))
          (by decide) (by decide))
        (by decide))⟩

open FetchState in
/-- **C10.** `start_ticker` on a ticker that is already in the completed
list returns `False` and leaves the entire session state unchanged — the
method returns before mutating any field, before `save_state()` and before
the sqlite progress log insert, so neither the in-memory state nor the
persisted state file changes. -/
theorem claim_C10_start_ticker_completed_frame (s : SessionState) (t now : String)
    (h : t ∈ s.completed) : start_ticker t now s = (false, s) := by
  simp [start_ticker, h]

open FetchState in
/-- Witness for C10 at a concrete session state. -/
theorem claim_C10_start_ticker_completed_frame_witness :
    "A" ∈ (complete_ticker "A" 10 20 "t2"
        ((start_ticker "A" "t1"
          (initialize_tickers ["A", "B"] (initState "sid" "t0"))).2)).completed ∧
      start_ticker "A" "t3"
          (complete_ticker "A" 10 20 "t2"
            ((start_ticker "A" "t1"
              (initialize_tickers ["A", "B"] (initState "sid" "t0"))).2)) =
        (false,
          complete_ticker "A" 10 20 "t2"
            ((start_ticker "A" "t1"
              (initialize_tickers ["A", "B"] (initState "sid" "t0"))).2)) :=
  ⟨by decide, claim_C10_start_ticker_completed_frame _ "A" "t3" (by decide)⟩

/-! ## `src/constituents_fetcher.py` — `ConstituentsFetcher.fetch_all_constituents`

The per-ticker behaviour of one attempt (Bloomberg calls, validation and the
database save, lines 343–377) is abstracted as a function
`outcome : String → Nat → Option (Int × Int)`: `some (records, apiPoints)`
when the attempt succeeds, `none` when any step raises (including the
explicit `raise Exception("No options data fetched")`).  `time.sleep`
delays are real time and have no effect on the data. -/

namespace Constituents

/-- The `results` dict built by `fetch_all_constituents`. -/
structure Results where
  successful : List String
  failed : List String
  totalRecords : Int
  totalApiPoints : Int
  deriving DecidableEq, Repr

/-- The `while retry_count < self.max_retries and not success` loop for one
ticker, recursing on the remaining retry budget; returns the number of
attempts made and the successful attempt's result, if any. -/
def runTarget (outcome : Nat → Option (Int × Int)) : Nat → Nat → Nat × Option (Int × Int)
  | 0, attempt => (attempt, none)
  | remaining + 1, attempt =>
      match outcome attempt with
      | some r => (attempt + 1, some r)
      | none => runTarget outcome remaining (attempt + 1)

/-- The `for ticker in tickers` loop: every ticker is driven through its
retry loop and appended to `successful` or `failed`; a ticker's terminal
failure never aborts the loop. -/
def runAll (maxRetries : Nat) (outcome : String → Nat → Option (Int × Int)) :
    List String → Results → Results
  | [], res => res
  | t :: ts, res =>
      match runTarget (outcome t) maxRetries 0 with
      | (_, some (records, apiPoints)) =>
          runAll maxRetries outcome ts
            { res with
              successful := res.successful ++ [t]
              totalRecords := res.totalRecords + records
              totalApiPoints := res.totalApiPoints + apiPoints }
      | (_, none) =>
          runAll maxRetries outcome ts { res with failed := res.failed ++ [t] }

/-- `ConstituentsFetcher.fetch_all_constituents`: on connection failure the
method returns the `{'error': 'Connection failed'}` dict (embedded as
`none`); otherwise it processes the **full** configured ticker list.  The
`resume` parameter is only logged — lines 322–324 read
`# Note: Resume functionality removed with state manager` /
`logger.warning("Resume functionality not available - fetching all tickers")`
— so it has no effect on which tickers are processed. -/
def fetch_all_constituents (connectOk : Bool) (resume : Bool) (maxRetries : Nat)
    (tickers : List String) (outcome : String → Nat → Option (Int × Int)) :
    Option Results :=
  if connectOk then
    let _ := resume
    some (runAll maxRetries outcome tickers ⟨[], [], 0, 0⟩)
  else none

theorem runTarget_all_fail (outcome : Nat → Option (Int × Int))
    (h : ∀ i, outcome i = none) :
    ∀ remaining attempt, runTarget outcome remaining attempt = (attempt + remaining, none) := by
  intro remaining
  induction remaining with
  | zero => intro attempt; simp [runTarget]
  | succ n ih =>
      intro attempt
      simp only [runTarget, h attempt]
      rw [ih]
      congr 1
      omega

theorem runAll_failed_mono (maxRetries : Nat)
    (outcome : String → Nat → Option (Int × Int)) :
    ∀ (ts : List String) (res : Results) (t : String),
      t ∈ res.failed → t ∈ (runAll maxRetries outcome ts res).failed := by
  intro ts
  induction ts with
  | nil => intro res t h; simpa [runAll] using h
  | cons u us ih =>
      intro res t h
      simp only [runAll]
      cases hrt : runTarget (outcome u) maxRetries 0 with
      | mk attempts result =>
          cases result with
          | some r =>
              obtain ⟨records, apiPoints⟩ := r
              exact ih _ t h
          | none => exact ih _ t (by simp [h])

end Constituents

/-! ## `scripts/robust_fetch.py` — `RobustFetcher` -/

namespace Robust

/-- The dict returned by `RobustFetcher._fetch_qqq_with_recovery`. -/
structure QqqResult where
  status : String
  records : Int
  apiPoints : Int
  deriving DecidableEq, Repr

/-- The `results` dict built by `RobustFetcher.fetch_all`. -/
structure RunResults where
  qqq : Option QqqResult
  constituents : Option Constituents.Results
  totalRecords : Int
  totalApiPoints : Int
  errors : List String
  deriving DecidableEq, Repr

/-- The `results` dict as initialized at the top of `fetch_all`
(lines 88–94). -/
def emptyRunResults : RunResults := ⟨none, none, 0, 0, []⟩

/-- `RobustFetcher.fetch_all`, specialized to its connection check: `results`
is initialized empty; if `_connect_bloomberg()` reports failure the method
logs an error and executes `return results` immediately (lines 100–102) —
no target is attempted and nothing is appended to `results['errors']`.
Otherwise the rest of the `try` block (lines 104–139) runs; it is abstracted
as the continuation `body`.  The `finally` block only disconnects and
prints. -/
def fetch_all (connectOk : Bool) (body : RunResults → RunResults) : RunResults :=
  if connectOk then body emptyRunResults else emptyRunResults

/-- The retry loop of `RobustFetcher._fetch_qqq_with_recovery`, recursing on
the remaining retry budget with `attempt` the 0-based attempt index (so the
Python `retry_count` after an attempt's exception is `attempt + 1`).  On
success it calls `complete_ticker("QQQ", ...)`; when the last attempt fails
it calls `fail_ticker("QQQ", str(e), retry_count)` — with `retry_count`
equal to the exhausted budget — and returns the failed dict.  (A non-raising
attempt that yields no data re-enters the loop without incrementing
`retry_count`; attempts are modelled as either succeeding or raising.)
The exception text is abstracted as `"error"`. -/
def qqqRecoveryAux (outcome : Nat → Option (Int × Int)) (now : String) :
    Nat → Nat → FetchState.SessionState → FetchState.SessionState × Bool
  | 0, _, s => (s, false)
  | remaining + 1, attempt, s =>
      match outcome attempt with
      | some (records, apiPoints) =>
          (FetchState.complete_ticker "QQQ" records apiPoints now s, true)
      | none =>
          if remaining = 0 then
            (FetchState.fail_ticker "QQQ" "error" (attempt + 1) now s, false)
          else qqqRecoveryAux outcome now remaining (attempt + 1) s

/-- `RobustFetcher._fetch_qqq_with_recovery` (`max_retries = 3` in the code;
kept as a parameter). -/
def qqq_recovery (outcome : Nat → Option (Int × Int)) (maxRetries : Nat)
    (now : String) (s : FetchState.SessionState) : FetchState.SessionState × Bool :=
  qqqRecoveryAux outcome now maxRetries 0 s

theorem qqqRecoveryAux_all_fail (outcome : Nat → Option (Int × Int))
    (h : ∀ i, outcome i = none) (now : String) :
    ∀ remaining attempt s, 0 < remaining →
      qqqRecoveryAux outcome now remaining attempt s =
        (FetchState.fail_ticker "QQQ" "error" (attempt + remaining) now s, false) := by
  intro remaining
  induction remaining with
  | zero => intro attempt s hpos; omega
  | succ n ih =>
      intro attempt s _
      simp only [qqqRecoveryAux, h attempt]
      by_cases hn : n = 0
      · subst hn; simp
      · rw [if_neg hn, ih attempt.succ s (Nat.pos_of_ne_zero hn)]
        congr 2
        omega

end Robust

open Constituents in
/-- **C2.** (The claim is right and the code is wrong.)  The repository's
own interface promises resume semantics — `robust_fetch.py` saves a
checkpoint on interruption, prints "Run with --resume flag to continue from
where you left off" and forwards `resume` to the constituents fetcher, and
`FetchStateManager.start_ticker` implements the skip-completed check — but
`fetch_all_constituents` ignores the `resume` flag (lines 322–324: "Resume
functionality removed with state manager") and processes the full ticker
list.  At the failing input (2 targets, 1 already completed, `resume=true`)
both targets are processed instead of the remaining one, and the flag makes
no difference to the result at all. -/
theorem claim_C2_resume_not_honored :
    fetch_all_constituents true true 3 ["AAPL", "MSFT"] (fun _ _ => some (1, 1)) =
        some ⟨["AAPL", "MSFT"], [], 2, 2⟩ ∧
      ∀ (connectOk r r' : Bool) (maxRetries : Nat) (tickers : List String)
        (outcome : String → Nat → Option (Int × Int)),
        fetch_all_constituents connectOk r maxRetries tickers outcome =
          fetch_all_constituents connectOk r' maxRetries tickers outcome := by
  refine ⟨rfl, ?_⟩
  intro connectOk r r' maxRetries tickers outcome
  cases connectOk <;> rfl

open Constituents FetchState Robust in
/-- **C4.** A target whose every attempt raises is attempted exactly
`maxRetries` times (with a fixed `retry_delay` sleep between attempts, not
modelled as it does not affect the data), then recorded as failed — in
`fetch_all_constituents` by appending it to `results['failed']`, and in the
state-managed QQQ path by `fail_ticker` with `retry_count = maxRetries` —
and the loop continues with the remaining targets instead of aborting. -/
theorem claim_C4_retry_bound (maxRetries : Nat) (hpos : 0 < maxRetries)
    (outcome : String → Nat → Option (Int × Int)) (t : String) (ts : List String)
    (hfail : ∀ i, outcome t i = none) (res : Results)
    (qoutcome : Nat → Option (Int × Int)) (hq : ∀ i, qoutcome i = none)
    (now : String) (s : SessionState) :
    (runTarget (outcome t) maxRetries 0).1 = maxRetries ∧
      (runTarget (outcome t) maxRetries 0).2 = none ∧
      runAll maxRetries outcome (t :: ts) res =
        runAll maxRetries outcome ts { res with failed := res.failed ++ [t] } ∧
      t ∈ (runAll maxRetries outcome (t :: ts) res).failed ∧
      ((qqq_recovery qoutcome maxRetries now s).1.failed.find?
          (fun p => p.1 = "QQQ")).map (fun p => p.2.retryCount) = some maxRetries := by
  have hrt := runTarget_all_fail (outcome t) hfail maxRetries 0
  have hstep : runAll maxRetries outcome (t :: ts) res =
      runAll maxRetries outcome ts { res with failed := res.failed ++ [t] } := by
    simp only [runAll, hrt]
  refine ⟨by simp [hrt], by simp [hrt], hstep, ?_, ?_⟩
  · rw [hstep]
    exact runAll_failed_mono maxRetries outcome ts _ t (by simp)
  · have hqr := qqqRecoveryAux_all_fail qoutcome hq now maxRetries 0 s hpos
    unfold qqq_recovery
    rw [hqr]
    simp [fail_ticker, find?_updateFail_eq]

open Constituents FetchState Robust in
/-- Witness for C4: a concrete always-failing target with retry budget 3. -/
theorem claim_C4_retry_bound_witness :
    0 < 3 ∧ (∀ i, (fun (_ : String) (_ : Nat) => (none : Option (Int × Int))) "AAPL" i = none) ∧
      ((runTarget ((fun (_ : String) (_ : Nat) => (none : Option (Int × Int))) "AAPL") 3 0).1 = 3 ∧
        (runTarget ((fun (_ : String) (_ : Nat) => (none : Option (Int × Int))) "AAPL") 3 0).2 = none ∧
        runAll 3 (fun _ _ => none) ["AAPL", "MSFT"] ⟨[], [], 0, 0⟩ =
          runAll 3 (fun _ _ => none) ["MSFT"]
            { (⟨[], [], 0, 0⟩ : Results) with failed := ([] : List String) ++ ["AAPL"] } ∧
        "AAPL" ∈ (runAll 3 (fun _ _ => none) ["AAPL", "MSFT"] ⟨[], [], 0, 0⟩).failed ∧
        ((qqq_recovery (fun _ => none) 3 "t1" (initState "sid" "t0")).1.failed.find?
            (fun p => p.1 = "QQQ")).map (fun p => p.2.retryCount) = some 3) :=
  ⟨by decide, fun _ => rfl,
    claim_C4_retry_bound 3 (by decide) (fun _ _ => none) "AAPL" ["MSFT"] (fun _ => rfl)
      ⟨[], [], 0, 0⟩ (fun _ => none) (fun _ => rfl) "t1" (initState "sid" "t0")⟩

open Robust in
/-- **C8 (counterexample).** The claim says a failed initial connection
makes the run call return an empty result with *exactly one* top-level
error in its error list; in the code (`robust_fetch.py` lines 100–102) the
early `return results` leaves `results['errors']` empty — zero errors, not
one. -/
theorem claim_C8_counterexample :
    fetch_all false id = emptyRunResults ∧ (fetch_all false id).errors.length ≠ 1 := by
  constructor <;> decide

open Robust in
/-- **C8 (amended).** If the initial connection fails before any target is
attempted, `fetch_all` returns immediately with the empty result — no QQQ
part, no constituents part, zero records, zero API points — and an *empty*
error list (no top-level error is recorded; consequently the CLI exit code
treats such a run as successful). -/
theorem claim_C8_amended :
    (∀ body : RunResults → RunResults, fetch_all false body = emptyRunResults) ∧
      emptyRunResults.qqq = none ∧ emptyRunResults.constituents = none ∧
      emptyRunResults.totalRecords = 0 ∧ emptyRunResults.totalApiPoints = 0 ∧
      emptyRunResults.errors = [] :=
  ⟨fun _ => rfl, rfl, rfl, rfl, rfl, rfl⟩

/-! ## `src/database_manager.py` — `DatabaseManager.save_options_data`

The `options_data` sqlite table is embedded as a list of rows; column
`UNIQUE(ticker, fetch_date)` means a batched `to_sql(..., if_exists='append',
method='multi')` insert (one transaction) succeeds atomically iff no inserted
key is already present in the table and the batch itself repeats no key;
otherwise sqlite raises `IntegrityError`, nothing is inserted, and
`save_options_data` falls back to `_update_existing_records`.  Only the
columns touched by the update path plus the key columns are modelled; the
remaining columns ride along unchanged and do not affect key counting.  The
`timestamp=CURRENT_TIMESTAMP` column is not modelled (pure wall-clock
metadata). -/

namespace Database

/-- An input record: one row of the DataFrame handed to `save_options_data`
(before `df['fetch_date'] = datetime.now().date()` is added). -/
structure Rec where
  ticker : String
  bid : Option ℚ
  ask : Option ℚ
  last : Option ℚ
  volume : Option ℚ
  openInterest : Option ℚ
  impliedVol : Option ℚ
  delta : Option ℚ
  gamma : Option ℚ
  theta : Option ℚ
  vega : Option ℚ
  deriving DecidableEq, Repr

/-- A persisted row of `options_data`. -/
structure Row where
  ticker : String
  fetchDate : String
  bid : Option ℚ
  ask : Option ℚ
  last : Option ℚ
  volume : Option ℚ
  openInterest : Option ℚ
  impliedVol : Option ℚ
  delta : Option ℚ
  gamma : Option ℚ
  theta : Option ℚ
  vega : Option ℚ
  deriving DecidableEq, Repr

/-- `df['fetch_date'] = datetime.now().date()`. -/
def mkRow (today : String) (r : Rec) : Row :=
  ⟨r.ticker, today, r.bid, r.ask, r.last, r.volume, r.openInterest, r.impliedVol,
    r.delta, r.gamma, r.theta, r.vega⟩

/-- The `UNIQUE(ticker, fetch_date)` natural key. -/
def rowKey (r : Row) : String × String := (r.ticker, r.fetchDate)

def hasKey (table : List Row) (k : String × String) : Bool :=
  table.any (fun r => rowKey r = k)

/-- The `UPDATE options_data SET bid=?, ask=?, last=?, volume=?,
open_interest=?, implied_vol=?, delta=?, gamma=?, theta=?, vega=? WHERE
ticker=? AND fetch_date=?` applied to one matching row. -/
def updateRow (x r : Row) : Row :=
  { x with
    bid := r.bid, ask := r.ask, last := r.last, volume := r.volume
    openInterest := r.openInterest, impliedVol := r.impliedVol
    delta := r.delta, gamma := r.gamma, theta := r.theta, vega := r.vega }

/-- One iteration of the `for _, row in df.iterrows()` loop of
`_update_existing_records`: run the keyed `UPDATE` (touching every row with
the same key) and add 1 to `updated` iff `cursor.rowcount > 0`. -/
def updStep (acc : Int × List Row) (r : Row) : Int × List Row :=
  (acc.1 + (if hasKey acc.2 (rowKey r) then 1 else 0),
    acc.2.map (fun x => if rowKey x = rowKey r then updateRow x r else x))

/-- `DatabaseManager._update_existing_records`. -/
def _update_existing_records (rows : List Row) (table : List Row) : Int × List Row :=
  rows.foldl updStep (0, table)

/-- `DatabaseManager.save_options_data`: empty frames save nothing; the
batched insert either appends every row (returning
`records_after - records_before = len(df)`) or raises `IntegrityError` on a
duplicate key, which is caught and routed to `_update_existing_records`. -/
def save_options_data (df : List Rec) (today : String) (table : List Row) :
    Int × List Row :=
  if df.isEmpty then (0, table)
  else
    let rows := df.map (mkRow today)
    if (∃ r ∈ rows, hasKey table (rowKey r) = true) ∨ ¬ (rows.map rowKey).Nodup then
      _update_existing_records rows table
    else ((rows.length : Int), table ++ rows)

/-- Number of persisted rows carrying key `k`. -/
def countKey (table : List Row) (k : String × String) : Nat :=
  (table.filter (fun r => rowKey r = k)).length

theorem countKey_eq_keys (l : List Row) (k : String × String) :
    countKey l k = ((l.map rowKey).filter (fun x => x = k)).length := by
  unfold countKey
  rw [List.filter_map]
  simp only [List.length_map]
  rfl

theorem filter_eq_singleton_of_nodup {α : Type _} [DecidableEq α]
    (l : List α) (k : α) (hnd : l.Nodup) (hmem : k ∈ l) :
    (l.filter (fun x => x = k)).length = 1 := by
  induction l with
  | nil => cases hmem
  | cons a as ih =>
      rw [List.nodup_cons] at hnd
      by_cases ha : a = k
      · subst ha
        have hnil : as.filter (fun x => x = a) = [] := by
          rw [List.filter_eq_nil_iff]
          intro b hb hba
          exact hnd.1 (by simpa [of_decide_eq_true hba] using hb)
        simp [List.filter_cons, hnil]
      · have hkm : k ∈ as := by
          rcases List.mem_cons.mp hmem with h | h
          · exact absurd h.symm ha
          · exact h
        simpa [List.filter_cons, ha] using ih hnd.2 hkm

theorem rowKey_updateRow (x r : Row) : rowKey (updateRow x r) = rowKey x := rfl

theorem map_rowKey_updateAll (r : Row) :
    ∀ l : List Row,
      (l.map (fun x => if rowKey x = rowKey r then updateRow x r else x)).map rowKey =
        l.map rowKey := by
  intro l
  induction l with
  | nil => rfl
  | cons x xs ih =>
      by_cases h : rowKey x = rowKey r <;>
        simp [h, rowKey_updateRow, ih]

theorem foldl_updStep_keys :
    ∀ (rows : List Row) (acc : Int × List Row),
      ((rows.foldl updStep acc).2).map rowKey = acc.2.map rowKey := by
  intro rows
  induction rows with
  | nil => intro acc; rfl
  | cons r rs ih =>
      intro acc
      rw [List.foldl_cons, ih]
      exact map_rowKey_updateAll r acc.2

theorem hasKey_iff (table : List Row) (k : String × String) :
    hasKey table k = true ↔ k ∈ table.map rowKey := by
  simp [hasKey, List.any_eq_true, List.mem_map]

theorem foldl_updStep_count :
    ∀ (rows : List Row) (acc : Int × List Row),
      (∀ r ∈ rows, rowKey r ∈ acc.2.map rowKey) →
      (rows.foldl updStep acc).1 = acc.1 + rows.length := by
  intro rows
  induction rows with
  | nil => intro acc _; simp
  | cons r rs ih =>
      intro acc hmem
      rw [List.foldl_cons]
      have hk : hasKey acc.2 (rowKey r) = true :=
        (hasKey_iff _ _).mpr (hmem r (by simp))
      have hnext : ∀ x ∈ rs, rowKey x ∈ ((updStep acc r).2).map rowKey := by
        intro x hx
        have : ((updStep acc r).2).map rowKey = acc.2.map rowKey :=
          map_rowKey_updateAll r acc.2
        rw [this]
        exact hmem x (by simp [hx])
      rw [ih _ hnext]
      simp [updStep, hk]
      omega

end Database

open Database in
/-- **C5 (counterexample).** The claim quantifies over *every* record set,
but for a record set that repeats a `(ticker, fetch_date)` key — here two
records for `AAPL` saved on the same day into a fresh table — calling
`save_options_data` twice leaves **zero** persisted rows for that key, not
exactly one: the single batched `to_sql(..., method='multi')` INSERT hits
the in-batch `UNIQUE(ticker, fetch_date)` violation and is rolled back
wholesale, and the fallback `_update_existing_records` UPDATE matches no
existing row. -/
theorem claim_C5_counterexample :
    countKey
      (save_options_data
        [⟨"AAPL", some 1, none, none, none, none, none, none, none, none, none⟩,
         ⟨"AAPL", some 2, none, none, none, none, none, none, none, none, none⟩]
        "2025-10-03"
        (save_options_data
          [⟨"AAPL", some 1, none, none, none, none, none, none, none, none, none⟩,
           ⟨"AAPL", some 2, none, none, none, none, none, none, none, none, none⟩]
          "2025-10-03" []).2).2
      ("AAPL", "2025-10-03") = 0 := by
  decide

open Database in
/-- **C5 (amended).** Saving the same record set twice (same fetch day,
pairwise distinct tickers within the set, keys not yet present in the table)
leaves exactly one persisted row per `(ticker, fetch_date)` key; the first
call inserts all rows and the second call is not an error: the
`IntegrityError` raised by the `UNIQUE(ticker, fetch_date)` constraint is
caught inside `save_options_data` and resolved by
`_update_existing_records`, which updates each of the `len(df)` existing
rows and returns that count to the caller.  The distinct-ticker hypothesis
is forced by the counterexample: a set repeating a key ends with zero rows
for it. -/
theorem claim_C5_upsert_idempotent (df : List Rec) (today : String) (table : List Row)
    (hnd : (df.map Rec.ticker).Nodup)
    (hfresh : ∀ r ∈ df, hasKey table (r.ticker, today) = false) :
    (∀ r ∈ df,
        countKey (save_options_data df today
          (save_options_data df today table).2).2 (r.ticker, today) = 1) ∧
      (save_options_data df today table).1 = (df.length : Int) ∧
      (save_options_data df today (save_options_data df today table).2).1 =
        (df.length : Int) := by
  rcases df with _ | ⟨d, ds⟩
  · exact ⟨(by intro r hr; cases hr), rfl, rfl⟩
  set df := d :: ds with hdf
  set rows := df.map (mkRow today) with hrows
  have hkeys : rows.map rowKey = (df.map Rec.ticker).map (fun t => (t, today)) := by
    simp [hrows, List.map_map, Function.comp, rowKey, mkRow]
  have hinj : Function.Injective (fun t : String => (t, today)) := by
    intro a b hab
    simpa using congrArg Prod.fst hab
  have hndk : (rows.map rowKey).Nodup := by
    rw [hkeys]; exact List.Nodup.map hinj hnd
  have hrowfresh : ∀ r ∈ rows, hasKey table (rowKey r) = false := by
    intro r hr
    obtain ⟨r0, hr0, rfl⟩ := List.mem_map.mp hr
    exact hfresh r0 hr0
  have hnoconf : ¬ ((∃ r ∈ rows, hasKey table (rowKey r) = true) ∨
      ¬ (rows.map rowKey).Nodup) := by
    rintro (⟨r, hr, hk⟩ | h)
    · rw [hrowfresh r hr] at hk; cases hk
    · exact h hndk
  have h1 : save_options_data df today table = ((rows.length : Int), table ++ rows) := by
    rw [hdf]
    unfold save_options_data
    rw [if_neg (by simp)]
    rw [if_neg (by rw [← hdf, ← hrows]; exact hnoconf)]
  have hmem0 : rowKey (mkRow today d) ∈ (table ++ rows).map rowKey := by
    rw [List.map_append]
    refine List.mem_append_right _ ?_
    exact List.mem_map.mpr ⟨mkRow today d, List.mem_map.mpr (by simp [hdf]), rfl⟩
  have h2 : save_options_data df today (table ++ rows) =
      _update_existing_records rows (table ++ rows) := by
    rw [hdf]
    unfold save_options_data
    rw [if_neg (by simp)]
    rw [if_pos]
    left
    refine ⟨mkRow today d, ?_, ?_⟩
    · rw [← hdf, ← hrows]
      exact List.mem_map.mpr (by simp [hdf])
    · exact (hasKey_iff _ _).mpr hmem0
  have hallmem : ∀ r ∈ rows, rowKey r ∈ ((0 : Int), table ++ rows).2.map rowKey := by
    intro r hr
    rw [List.map_append]
    exact List.mem_append_right _ (List.mem_map.mpr ⟨r, hr, rfl⟩)
  refine ⟨?_, ?_, ?_⟩
  · intro r0 hr0
    rw [h1, h2]
    have hkeq : ((_update_existing_records rows (table ++ rows)).2).map rowKey =
        (table ++ rows).map rowKey := foldl_updStep_keys rows (0, table ++ rows)
    rw [countKey_eq_keys, hkeq, List.map_append, List.filter_append, List.length_append]
    have hnot : (r0.ticker, today) ∉ table.map rowKey := by
      intro hm
      have := (hasKey_iff table (r0.ticker, today)).mpr hm
      rw [hfresh r0 hr0] at this
      cases this
    have hmem : (r0.ticker, today) ∈ rows.map rowKey :=
      List.mem_map.mpr ⟨mkRow today r0, List.mem_map.mpr ⟨r0, hr0, rfl⟩, rfl⟩
    have hz : ((table.map rowKey).filter (fun x => x = (r0.ticker, today))).length = 0 := by
      rw [List.length_eq_zero, List.filter_eq_nil_iff]
      intro b hb hbk
      exact hnot (by simpa [of_decide_eq_true hbk] using hb)
    have ho : ((rows.map rowKey).filter (fun x => x = (r0.ticker, today))).length = 1 :=
      filter_eq_singleton_of_nodup _ _ hndk hmem
    omega
  · rw [h1]
    simp [hrows]
  · rw [h1, h2]
    unfold _update_existing_records
    rw [foldl_updStep_count rows (0, table ++ rows) hallmem]
    simp [hrows]

open Database in
/-- Witness for C5: one fresh record saved twice into an empty table. -/
theorem claim_C5_upsert_idempotent_witness :
    (([⟨"QQQ US 12/20/24 C500 Equity", some (21 / 2 : ℚ), some (107 / 10 : ℚ), none,
        none, none, none, none, none, none, none⟩] :
          List Rec).map Rec.ticker).Nodup ∧
      (∀ r ∈ ([⟨"QQQ US 12/20/24 C500 Equity", some (21 / 2 : ℚ), some (107 / 10 : ℚ),
          none, none, none, none, none, none, none, none⟩] : List Rec),
        hasKey ([] : List Row) (r.ticker, "2025-10-03") = false) ∧
      (∀ r ∈ ([⟨"QQQ US 12/20/24 C500 Equity", some (21 / 2 : ℚ), some (107 / 10 : ℚ),
          none, none, none, none, none, none, none, none⟩] : List Rec),
        countKey (save_options_data
          [⟨"QQQ US 12/20/24 C500 Equity", some (21 / 2 : ℚ), some (107 / 10 : ℚ), none,
            none, none, none, none, none, none, none⟩] "2025-10-03"
          (save_options_data
            [⟨"QQQ US 12/20/24 C500 Equity", some (21 / 2 : ℚ), some (107 / 10 : ℚ), none,
              none, none, none, none, none, none, none⟩] "2025-10-03" []).2).2
          (r.ticker, "2025-10-03") = 1) :=
  ⟨by decide, by decide,
    (claim_C5_upsert_idempotent
      [⟨"QQQ US 12/20/24 C500 Equity", some (21 / 2 : ℚ), some (107 / 10 : ℚ), none,
        none, none, none, none, none, none, none⟩] "2025-10-03" []
      (by decide) (by decide)).1⟩

/-! ## `src/data_processor.py` — `DataProcessor.validate_data`

A DataFrame row in the transformed (normalized) column layout is embedded as
`PRec`, numeric cells as `Option ℚ` (`none` = NaN/absent; a pandas
comparison against NaN is false, so the row survives that filter).  The
Bloomberg-format column names (`PX_BID`, ...) go through the same branches
with the same logic.  Calendar dates are embedded as integer day numbers:
`days_to_expiry = (pd.to_datetime(expiry) - datetime.now()).dt.days` becomes
`expiry - today`; the `YYYYMMDD`-string-to-date conversion itself is out of
scope.  Derived columns that `_remove_invalid_records` never reads
(`moneyness`, `moneyness_class`, `years_to_expiry`, `expiry_date`) are
omitted. -/

namespace Processor

structure PRec where
  ticker : String
  bid : Option ℚ
  ask : Option ℚ
  last : Option ℚ
  volume : Option ℚ
  openInterest : Option ℚ
  impliedVol : Option ℚ
  impliedVolBid : Option ℚ
  impliedVolAsk : Option ℚ
  expiry : Option Int
  strike : Option ℚ
  spread : Option ℚ
  spreadPct : Option ℚ
  daysToExpiry : Option Int
  deriving DecidableEq, Repr

/-- `df.loc[df[field] < 0, field] = np.nan` for `bid`/`ask`/`last`
(`pd.to_numeric` is the identity on the already-typed embedding). -/
def cleanNeg (v : Option ℚ) : Option ℚ :=
  match v with
  | some x => if x < 0 then none else some x
  | none => none

/-- `DataProcessor._clean_prices`. -/
def _clean_prices (r : PRec) : PRec :=
  { r with bid := cleanNeg r.bid, ask := cleanNeg r.ask, last := cleanNeg r.last }

/-- `DataProcessor._calculate_derived_fields`.  `spread_pct = spread/ask*100`
with `ask = 0` yields NaN (`bid = 0`) or `-inf` (`bid > 0`, which the
`bid > ask` filter removes anyway); both compare false against `50`, exactly
like `none`. -/
def _calculate_derived_fields (today : Int) (r : PRec) : PRec :=
  { r with
    spread :=
      match r.bid, r.ask with
      | some b, some a => some (a - b)
      | _, _ => none
    spreadPct :=
      match r.bid, r.ask with
      | some b, some a => if a = 0 then none else some ((a - b) / a * 100)
      | _, _ => none
    daysToExpiry := r.expiry.map (fun e => e - today) }

/-- `df['bid'] > df['ask']` at one row (false when either side is NaN). -/
def optGtQ : Option ℚ → Option ℚ → Bool
  | some b, some a => b > a
  | _, _ => false

/-- `df['days_to_expiry'] <= 0` at one row. -/
def optLeZero : Option Int → Bool
  | some d => d ≤ 0
  | none => false

/-- `df['spread_pct'] > 50` at one row. -/
def optGt50 : Option ℚ → Bool
  | some p => p > 50
  | none => false

/-- `(df[iv] < 0) | (df[iv] > 5)` at one row. -/
def invalidIV : Option ℚ → Bool
  | some v => v < 0 || v > 5
  | none => false

/-- `(df[vol] == 0) & (df[oi] == 0)` at one row. -/
def noActivity (vol oi : Option ℚ) : Bool :=
  vol = some 0 && oi = some 0

/-- `DataProcessor._remove_invalid_records`: the five filter families applied
in source order (three implied-volatility columns of the transformed layout;
the volume/open-interest pair filtered once thanks to the `break`s). -/
def _remove_invalid_records (l : List PRec) : List PRec :=
  ((((((l.filter (fun r => !(optGtQ r.bid r.ask))).filter
      (fun r => !(optLeZero r.daysToExpiry))).filter
      (fun r => !(optGt50 r.spreadPct))).filter
      (fun r => !(invalidIV r.impliedVol))).filter
      (fun r => !(invalidIV r.impliedVolBid))).filter
      (fun r => !(invalidIV r.impliedVolAsk))).filter
      (fun r => !(noActivity r.volume r.openInterest))

/-- `DataProcessor.validate_data`: clean, derive, then drop invalid rows
(the required-field checks only log warnings). -/
def validate_data (today : Int) (l : List PRec) : List PRec :=
  _remove_invalid_records ((l.map _clean_prices).map (_calculate_derived_fields today))

/-! ### `DataProcessor._parse_bloomberg_ticker` and the normalizer's skip

Strings are processed as their character lists.  `splitOnP` is the common
splitter: Python's `str.split('/')` is `splitOnP (· = '/')` (empty pieces
kept), and Python's `str.split()` (no argument) is `splitOnP isWhitespace`
with the empty pieces discarded (`pySplit`).  `float(...)` is modelled on
the digit/decimal fragment (`digits`, `digits.digits`, `.digits`,
`digits.`); the sign/exponent/`inf`/whitespace forms Python would also
accept never occur in option strike tokens and no theorem below relies on
their absence.  `str.zfill(2)` is modelled without its sign-aware variant
for the same reason. -/

def splitOnP (p : Char → Bool) : List Char → List (List Char)
  | [] => [[]]
  | c :: cs =>
      let r := splitOnP p cs
      if p c then [] :: r
      else
        match r with
        | [] => [[c]]
        | t :: ts => (c :: t) :: ts

/-- Python `ticker_key.split()`: split on whitespace runs, no empty tokens. -/
def pySplit (cs : List Char) : List (List Char) :=
  (splitOnP (fun c => c.isWhitespace) cs).filter (fun t => !t.isEmpty)

/-- Python `s.zfill(2)` on the unsigned strings that occur here. -/
def zfill2 (cs : List Char) : List Char :=
  if 2 ≤ cs.length then cs else List.replicate (2 - cs.length) '0' ++ cs

def natOfDigits (cs : List Char) : ℕ :=
  cs.foldl (fun acc c => 10 * acc + (c.toNat - '0'.toNat)) 0

/-- Python `float(s)` on the digit/decimal fragment; `none` embeds the
`ValueError` that `_parse_bloomberg_ticker` turns into a `None` result. -/
def parseFloat (cs : List Char) : Option ℚ :=
  let intPart := cs.takeWhile (fun c => c.isDigit)
  match cs.dropWhile (fun c => c.isDigit) with
  | [] => if intPart.isEmpty then none else some (natOfDigits intPart : ℚ)
  | '.' :: frac =>
      if frac.all (fun c => c.isDigit) && (!intPart.isEmpty || !frac.isEmpty) then
        some ((natOfDigits intPart : ℚ) + (natOfDigits frac : ℚ) / (10 : ℚ) ^ frac.length)
      else none
  | _ => none

/-- The dict returned by `_parse_bloomberg_ticker` on success. -/
structure TickerInfo where
  ticker : String
  underlying : String
  expiry : String
  optionType : Char
  strike : ℚ
  deriving DecidableEq, Repr

/-- `DataProcessor._parse_bloomberg_ticker`: split the key on whitespace
(≥ 4 parts required, extras ignored), split the third part on `/` into
exactly month/day/year, prefix the year with `"20"` and zero-pad month and
day, take the fourth part's first character as the option type and parse the
remainder as the strike; any failure (caught `Exception` in Python) yields
`none`. -/
def _parse_bloomberg_ticker (tickerKey : String) : Option TickerInfo :=
  match pySplit tickerKey.toList with
  | underlying :: _country :: datePart :: optionPart :: _rest =>
      match splitOnP (fun c => c = '/') datePart with
      | [month, day, year] =>
          match optionPart with
          | optType :: strikeChars =>
              match parseFloat strikeChars with
              | some strike =>
                  some ⟨tickerKey, String.mk underlying,
                    String.mk (('2' :: '0' :: year) ++ zfill2 month ++ zfill2 day),
                    optType, strike⟩
              | none => none
          | [] => none
      | _ => none
  | _ => none

/-- The per-entity loop of `DataProcessor.transform_bloomberg_data`
restricted to its parse step: entities whose natural key fails to parse are
skipped (`if not ticker_info: continue`) with a logged warning — they
contribute no records and the batch continues. -/
def parsedEntities (keys : List String) : List TickerInfo :=
  keys.filterMap _parse_bloomberg_ticker

theorem splitOnP_all_false (p : Char → Bool) :
    ∀ t : List Char, (∀ c ∈ t, p c = false) → splitOnP p t = [t] := by
  intro t
  induction t with
  | nil => intro _; rfl
  | cons c cs ih =>
      intro h
      have hc : p c = false := h c (by simp)
      have hr := ih (fun x hx => h x (by simp [hx]))
      simp [splitOnP, hc, hr]

theorem splitOnP_sep (p : Char → Bool) (c₀ : Char) (hc₀ : p c₀ = true) :
    ∀ (t rest : List Char), (∀ c ∈ t, p c = false) →
      splitOnP p (t ++ c₀ :: rest) = t :: splitOnP p rest := by
  intro t
  induction t with
  | nil => intro rest _; simp [splitOnP, hc₀]
  | cons x t' ih =>
      intro rest h
      have hx : p x = false := h x (by simp)
      have hr := ih rest (fun c hc => h c (by simp [hc]))
      simp [splitOnP, hx, hr]

theorem pySplit_sep (t rest : List Char) (hne : t ≠ [])
    (hws : ∀ c ∈ t, c.isWhitespace = false) :
    pySplit (t ++ ' ' :: rest) = t :: pySplit rest := by
  unfold pySplit
  rw [splitOnP_sep _ ' ' (by decide) t rest hws, List.filter_cons]
  simp [hne]

theorem pySplit_single (t : List Char) (hne : t ≠ [])
    (hws : ∀ c ∈ t, c.isWhitespace = false) : pySplit t = [t] := by
  unfold pySplit
  rw [splitOnP_all_false _ t hws, List.filter_cons]
  simp [hne]

theorem digit_not_ws (c : Char) (h : c.isDigit = true) : c.isWhitespace = false := by
  cases hw : c.isWhitespace
  · rfl
  · exfalso
    have hmem : ((c = ' ' ∨ c = '\t') ∨ c = '\x0d') ∨ c = '\n' := by
      simpa [Char.isWhitespace] using hw
    rcases hmem with ((rfl | rfl) | rfl) | rfl <;> exact absurd h (by decide)

theorem digit_not_slash (c : Char) (h : c.isDigit = true) :
    (decide (c = '/') : Bool) = false := by
  cases hs : decide (c = '/')
  · rfl
  · exfalso
    have : c = '/' := of_decide_eq_true hs
    subst this
    exact absurd h (by decide)

theorem takeWhile_all (p : Char → Bool) :
    ∀ l : List Char, (∀ c ∈ l, p c = true) → l.takeWhile p = l := by
  intro l
  induction l with
  | nil => intro _; rfl
  | cons c cs ih =>
      intro h
      simp [List.takeWhile_cons, h c (by simp), ih (fun x hx => h x (by simp [hx]))]

theorem dropWhile_all (p : Char → Bool) :
    ∀ l : List Char, (∀ c ∈ l, p c = true) → l.dropWhile p = [] := by
  intro l
  induction l with
  | nil => intro _; rfl
  | cons c cs ih =>
      intro h
      simp [List.dropWhile_cons, h c (by simp), ih (fun x hx => h x (by simp [hx]))]

theorem parseFloat_digits (cs : List Char) (hne : cs ≠ [])
    (hd : ∀ c ∈ cs, c.isDigit = true) :
    parseFloat cs = some (natOfDigits cs : ℚ) := by
  unfold parseFloat
  rw [dropWhile_all _ cs hd, takeWhile_all _ cs hd]
  simp [hne]

theorem zfill2_of_len2 (cs : List Char) (h : cs.length = 2) : zfill2 cs = cs := by
  unfold zfill2
  rw [if_pos (by omega)]

/-- The `MM/DD/YY` date token of the ticker grammar. -/
def dateToken (mm dd yy : List Char) : List Char :=
  mm ++ ('/' :: (dd ++ ('/' :: yy)))

/-- A natural-key string `SYMBOL QUALIFIER DATE OPT SUFFIX`. -/
def optionKey (symbol qualifier date opt suffix : List Char) : List Char :=
  symbol ++ (' ' :: (qualifier ++ (' ' :: (date ++ (' ' :: (opt ++ (' ' :: suffix)))))))

theorem derived_daysToExpiry (today : Int) (r : PRec) :
    (_calculate_derived_fields today r).daysToExpiry =
      (_calculate_derived_fields today r).expiry.map (fun e => e - today) := rfl

theorem derived_spreadPct (today : Int) (r : PRec) :
    (_calculate_derived_fields today r).spreadPct =
      match (_calculate_derived_fields today r).bid,
            (_calculate_derived_fields today r).ask with
      | some b, some a => if a = 0 then none else some ((a - b) / a * 100)
      | _, _ => none := rfl

end Processor

open Processor in
/-- **C6.** Every row in the output of `DataProcessor.validate_data`
satisfies: `bid ≤ ask` whenever both are non-null, the contract is not yet
expired on the observation day (strictly positive days to expiry) whenever
an expiry is present, and the bid-ask spread as a fraction of ask is at most
50% whenever bid and ask are present with a positive ask. -/
theorem claim_C6_validation_invariant (today : Int) (l : List PRec) (r : PRec)
    (hr : r ∈ validate_data today l) :
    (∀ b a : ℚ, r.bid = some b → r.ask = some a → b ≤ a) ∧
      (∀ e : Int, r.expiry = some e → today < e) ∧
      (∀ b a : ℚ, r.bid = some b → r.ask = some a → 0 < a → (a - b) / a ≤ 1 / 2) := by
  unfold validate_data _remove_invalid_records at hr
  have h7 := List.mem_filter.mp hr
  have h6 := List.mem_filter.mp h7.1
  have h5 := List.mem_filter.mp h6.1
  have h4 := List.mem_filter.mp h5.1
  have h3 := List.mem_filter.mp h4.1
  have h2 := List.mem_filter.mp h3.1
  have h1 := List.mem_filter.mp h2.1
  obtain ⟨c, _, hc⟩ := List.mem_map.mp h1.1
  have hgt : optGtQ r.bid r.ask = false := by
    simpa using h1.2
  have hexp : optLeZero r.daysToExpiry = false := by
    simpa using h2.2
  have hpct : optGt50 r.spreadPct = false := by
    simpa using h3.2
  refine ⟨?_, ?_, ?_⟩
  · intro b a hb ha
    rw [hb, ha] at hgt
    simp only [optGtQ, decide_eq_false_iff_not] at hgt
    exact le_of_not_lt hgt
  · intro e he
    have hdays : r.daysToExpiry = some (e - today) := by
      rw [← hc] at he ⊢
      rw [derived_daysToExpiry, he]
      rfl
    rw [hdays] at hexp
    simp only [optLeZero, decide_eq_false_iff_not] at hexp
    omega
  · intro b a hb ha hapos
    have hane : a ≠ 0 := ne_of_gt hapos
    have hsp : r.spreadPct = some ((a - b) / a * 100) := by
      rw [← hc] at hb ha ⊢
      rw [derived_spreadPct, hb, ha]
      simp [hane]
    rw [hsp] at hpct
    simp only [optGt50, decide_eq_false_iff_not] at hpct
    have h50 : (a - b) / a * 100 ≤ 50 := le_of_not_lt hpct
    nlinarith [h50]

open Processor in
/-- Witness for C6: a concrete frame with one surviving row. -/
theorem claim_C6_validation_invariant_witness :
    (⟨"X", some 1, some 2, none, some 5, some 1, none, none, none, some 20, none,
        some 1, some 50, some 10⟩ : PRec) ∈
        validate_data 10
          [⟨"X", some 1, some 2, none, some 5, some 1, none, none, none, some 20, none,
            none, none, none⟩] ∧
      ((∀ b a : ℚ,
          (⟨"X", some 1, some 2, none, some 5, some 1, none, none, none, some 20, none,
            some 1, some 50, some 10⟩ : PRec).bid = some b →
          (⟨"X", some 1, some 2, none, some 5, some 1, none, none, none, some 20, none,
            some 1, some 50, some 10⟩ : PRec).ask = some a → b ≤ a) ∧
        (∀ e : Int,
          (⟨"X", some 1, some 2, none, some 5, some 1, none, none, none, some 20, none,
            some 1, some 50, some 10⟩ : PRec).expiry = some e → 10 < e) ∧
        (∀ b a : ℚ,
          (⟨"X", some 1, some 2, none, some 5, some 1, none, none, none, some 20, none,
            some 1, some 50, some 10⟩ : PRec).bid = some b →
          (⟨"X", some 1, some 2, none, some 5, some 1, none, none, none, some 20, none,
            some 1, some 50, some 10⟩ : PRec).ask = some a → 0 < a → (a - b) / a ≤ 1 / 2)) := by
  have hmem : (⟨"X", some 1, some 2, none, some 5, some 1, none, none, none, some 20, none,
      some 1, some 50, some 10⟩ : PRec) ∈
      validate_data 10
        [⟨"X", some 1, some 2, none, some 5, some 1, none, none, none, some 20, none,
          none, none, none⟩] := by
    rw [show validate_data 10
        [⟨"X", some 1, some 2, none, some 5, some 1, none, none, none, some 20, none,
          none, none, none⟩] =
        [⟨"X", some 1, some 2, none, some 5, some 1, none, none, none, some 20, none,
          some 1, some 50, some 10⟩] by
      norm_num [validate_data, _remove_invalid_records, _clean_prices,
        _calculate_derived_fields, cleanNeg, optGtQ, optLeZero, optGt50, invalidIV,
        noActivity, List.filter]]
    exact List.mem_singleton_self _
  exact ⟨hmem,
    claim_C6_validation_invariant 10
      [⟨"X", some 1, some 2, none, some 5, some 1, none, none, none, some 20, none,
        none, none, none⟩]
      ⟨"X", some 1, some 2, none, some 5, some 1, none, none, none, some 20, none,
        some 1, some 50, some 10⟩
      hmem⟩

open Processor in
/-- **C9 (counterexample).** The claim says every string *not* matching the
grammar `SYMBOL QUALIFIER MM/DD/YY Cnnn SUFFIX` yields no parse result; but
`'QQQ US 10/03/25 C490'` — four tokens, no instrument-type suffix, hence
outside the grammar — parses successfully. -/
theorem claim_C9_counterexample :
    _parse_bloomberg_ticker "QQQ US 10/03/25 C490" =
      some ⟨"QQQ US 10/03/25 C490", "QQQ", "20251003", 'C', ((490 : ℕ) : ℚ)⟩ := by
  decide

open Processor in
/-- **C9 (amended).** Every natural-key string of the grammar form
`SYMBOL QUALIFIER MM/DD/YY <C|P>nnn SUFFIX` parses to underlying `SYMBOL`,
expiry `20YYMMDD`, the class letter, and the strike digits as a number; and
whenever a key fails to parse the normalizer skips that entity (it
contributes nothing and the batch continues).  The parser does not, however,
reject every non-grammar string: the suffix requirement and the C/P
restriction are not enforced (see the counterexample). -/
theorem claim_C9_amended (symbol qualifier suffix mm dd yy strike : List Char) (cls : Char)
    (hsym : symbol ≠ [] ∧ ∀ c ∈ symbol, c.isWhitespace = false)
    (hq : qualifier ≠ [] ∧ ∀ c ∈ qualifier, c.isWhitespace = false)
    (hsuf : suffix ≠ [] ∧ ∀ c ∈ suffix, c.isWhitespace = false)
    (hmm : mm.length = 2 ∧ ∀ c ∈ mm, c.isDigit = true)
    (hdd : dd.length = 2 ∧ ∀ c ∈ dd, c.isDigit = true)
    (hyy : yy.length = 2 ∧ ∀ c ∈ yy, c.isDigit = true)
    (hcls : cls = 'C' ∨ cls = 'P')
    (hstk : strike ≠ [] ∧ ∀ c ∈ strike, c.isDigit = true) :
    _parse_bloomberg_ticker
        (String.mk (optionKey symbol qualifier (dateToken mm dd yy) (cls :: strike) suffix)) =
      some ⟨String.mk (optionKey symbol qualifier (dateToken mm dd yy) (cls :: strike) suffix),
        String.mk symbol, String.mk (('2' :: '0' :: yy) ++ mm ++ dd), cls,
        (natOfDigits strike : ℚ)⟩ ∧
      ∀ (k : String) (ks : List String),
        _parse_bloomberg_ticker k = none → parsedEntities (k :: ks) = parsedEntities ks := by
  have hdate_ne : dateToken mm dd yy ≠ [] := by
    intro h
    have := congrArg List.length h
    simp [dateToken] at this
  have hdate_ws : ∀ c ∈ dateToken mm dd yy, c.isWhitespace = false := by
    intro c hc
    simp only [dateToken, List.mem_append, List.mem_cons] at hc
    rcases hc with hm | rfl | hd | rfl | hy
    · exact digit_not_ws c (hmm.2 c hm)
    · decide
    · exact digit_not_ws c (hdd.2 c hd)
    · decide
    · exact digit_not_ws c (hyy.2 c hy)
  have hopt_ws : ∀ c ∈ cls :: strike, c.isWhitespace = false := by
    intro c hc
    rcases List.mem_cons.mp hc with rfl | hcs
    · rcases hcls with rfl | rfl <;> decide
    · exact digit_not_ws c (hstk.2 c hcs)
  have hsplit :
      pySplit (optionKey symbol qualifier (dateToken mm dd yy) (cls :: strike) suffix) =
        [symbol, qualifier, dateToken mm dd yy, cls :: strike, suffix] := by
    unfold optionKey
    rw [pySplit_sep _ _ hsym.1 hsym.2, pySplit_sep _ _ hq.1 hq.2,
      pySplit_sep _ _ hdate_ne hdate_ws, pySplit_sep _ _ (by simp) hopt_ws,
      pySplit_single _ hsuf.1 hsuf.2]
  have hdsplit : splitOnP (fun c => c = '/') (dateToken mm dd yy) = [mm, dd, yy] := by
    unfold dateToken
    rw [splitOnP_sep _ '/' (by decide) mm _ (fun c hc => digit_not_slash c (hmm.2 c hc)),
      splitOnP_sep _ '/' (by decide) dd _ (fun c hc => digit_not_slash c (hdd.2 c hc)),
      splitOnP_all_false _ yy (fun c hc => digit_not_slash c (hyy.2 c hc))]
  have hpf := parseFloat_digits strike hstk.1 hstk.2
  constructor
  · unfold _parse_bloomberg_ticker
    have htl : (String.mk (optionKey symbol qualifier (dateToken mm dd yy)
        (cls :: strike) suffix)).toList =
        optionKey symbol qualifier (dateToken mm dd yy) (cls :: strike) suffix := rfl
    rw [htl, hsplit]
    simp only [hdsplit, hpf, zfill2_of_len2 mm hmm.1, zfill2_of_len2 dd hdd.1]
  · intro k ks h
    simp [parsedEntities, h]

open Processor in
/-- Witness for the amended C9 at the spec's example key
`QQQ US 10/03/25 C490 Equity`. -/
theorem claim_C9_amended_witness :
    (("QQQ".toList ≠ [] ∧ ∀ c ∈ "QQQ".toList, c.isWhitespace = false) ∧
        ("US".toList ≠ [] ∧ ∀ c ∈ "US".toList, c.isWhitespace = false) ∧
        ("Equity".toList ≠ [] ∧ ∀ c ∈ "Equity".toList, c.isWhitespace = false) ∧
        ("10".toList.length = 2 ∧ ∀ c ∈ "10".toList, c.isDigit = true) ∧
        ("03".toList.length = 2 ∧ ∀ c ∈ "03".toList, c.isDigit = true) ∧
        ("25".toList.length = 2 ∧ ∀ c ∈ "25".toList, c.isDigit = true) ∧
        ('C' = 'C' ∨ 'C' = 'P') ∧
        ("490".toList ≠ [] ∧ ∀ c ∈ "490".toList, c.isDigit = true)) ∧
      (_parse_bloomberg_ticker
          (String.mk (optionKey "QQQ".toList "US".toList
            (dateToken "10".toList "03".toList "25".toList)
            ('C' :: "490".toList) "Equity".toList)) =
        some ⟨String.mk (optionKey "QQQ".toList "US".toList
            (dateToken "10".toList "03".toList "25".toList)
            ('C' :: "490".toList) "Equity".toList),
          String.mk "QQQ".toList,
          String.mk (('2' :: '0' :: "25".toList) ++ "10".toList ++ "03".toList), 'C',
          (natOfDigits "490".toList : ℚ)⟩ ∧
        ∀ (k : String) (ks : List String),
          _parse_bloomberg_ticker k = none → parsedEntities (k :: ks) = parsedEntities ks) :=
  ⟨⟨by decide, by decide, by decide, by decide, by decide, by decide, by decide, by decide⟩,
    claim_C9_amended "QQQ".toList "US".toList "Equity".toList "10".toList "03".toList
      "25".toList "490".toList 'C' (by decide) (by decide) (by decide) (by decide)
      (by decide) (by decide) (by decide) (by decide)⟩

end BloombergFetcher
